import Mathlib

/-!
Verification of the EIP-6475 `Optional[T]` SSZ container
(`assets/eip-6475/optional.py`).

The Python source sits on top of the external `remerkleable` library
(immutable merkle tree nodes, generalized-index navigation, basic-value
packing).  Following the spec's scoping, the Optional container itself is
embedded faithfully from the source, while the external collaborators
(node abstraction, gindex algebra, element type descriptor) are modelled
from their documented interface: nodes are an inductive binary tree with
32-byte leaves, hashing is an abstract parameter `H`, and the element type
`T` is an abstract descriptor record.
-/

/-- A 32-byte chunk, modelled as a list of byte values. -/
abbrev Chunk := List Nat

/-- The all-zero 32-byte root (remerkleable's `Root()` default). -/
def zeroRoot : Chunk := List.replicate 32 0

/-- External node abstraction (remerkleable.tree): an immutable binary tree
node is either a `RootNode` (a 32-byte leaf, possibly a summary of a
subtree) or a `PairNode` with two children. -/
inductive Node where
  | root : Chunk → Node
  | pair : Node → Node → Node
deriving DecidableEq, Repr

/-- Left child of a node (`Node.get_left`); navigation into a leaf fails. -/
def Node.get_left : Node → Option Node
  | .pair l _ => some l
  | .root _ => none

/-- Right child of a node (`Node.get_right`); navigation into a leaf fails. -/
def Node.get_right : Node → Option Node
  | .pair _ r => some r
  | .root _ => none

/-- Merkle root of a node, parametrized by the (external) 2-to-1 hash `H`:
a leaf is its own root, a pair hashes the roots of its children. -/
def Node.merkle_root (H : Chunk → Chunk → Chunk) : Node → Chunk
  | .root r => r
  | .pair l r => H (l.merkle_root H) (r.merkle_root H)

/-- `rebind_right`: replace the right child of a pair node, keeping the left
child shared.  Fails (raises in the library) on a leaf. -/
def Node.rebind_right : Node → Node → Option Node
  | .pair l _, newRight => some (.pair l newRight)
  | .root _, _ => none

/-- External zero-subtree constructor `zero_node(depth)`: the canonical
summary leaf for a fully zero subtree of the given depth. -/
def zero_node (H : Chunk → Chunk → Chunk) : Nat → Node
  | 0 => .root zeroRoot
  | n + 1 =>
      .root (H ((zero_node H n).merkle_root H) ((zero_node H n).merkle_root H))

/-- Little-endian 32-byte encoding of an unsigned 256-bit integer
(`uint256(n).get_backing()` stores this chunk in a root node). -/
def encodeUint256 (n : Nat) : Chunk :=
  (List.range 32).map (fun i => n / 256 ^ i % 256)

/-- Little-endian decoding of a chunk back to an unsigned integer. -/
def decodeUint256 (bs : Chunk) : Nat :=
  bs.foldr (fun b acc => b % 256 + 256 * acc) 0

/-- `uint256.view_from_backing(node)`: decode a root leaf as a uint256;
a pair node is not a valid basic-value backing. -/
def uint256_from_node : Node → Option Nat
  | .root bs => some (decodeUint256 bs)
  | .pair _ _ => none

/-- Python `int.bit_length`. -/
def bit_length (m : Nat) : Nat :=
  if m = 0 then 0 else Nat.log2 m + 1

/-- External `get_depth(elem_count) = (elem_count - 1).bit_length()`. -/
def get_depth (n : Nat) : Nat := bit_length (n - 1)

/-- External `to_gindex(index, depth)`: anchor `2^depth`, out-of-bounds
indices are rejected, otherwise the gindex is `anchor | index`. -/
def to_gindex (i depth : Nat) : Option Nat :=
  if 2 ^ depth ≤ i then none else some (2 ^ depth + i)

/-- External constant `RIGHT_GINDEX = 3` (remerkleable.tree): the right
child of the root. -/
def RIGHT_GINDEX : Nat := 3

/-- Fuel-driven floor of the base-2 logarithm (structurally recursive so
that it evaluates inside the kernel); the fuel is the number itself. -/
def log2Aux : Nat → Nat → Nat
  | _, 0 => 0
  | 0, _ => 0
  | fuel + 1, n => if n < 2 then 0 else log2Aux fuel (n / 2) + 1

/-- Floor of the base-2 logarithm: the position of the most significant
set bit of a positive number. -/
def log2floor (n : Nat) : Nat := log2Aux n n

/-- The left/right path encoded by a gindex: the bits below the most
significant set bit, most significant first (`false` = left). -/
def gindexPath (g : Nat) : List Bool :=
  ((List.range (log2floor g)).reverse).map (fun i => g.testBit i)

/-- Navigation along a path (`Node.getter`): descending into a leaf fails. -/
def getNode : Node → List Bool → Option Node
  | n, [] => some n
  | .pair l r, b :: bs => getNode (if b then r else l) bs
  | .root _, _ :: _ => none

/-- Path-scoped copy-on-write replacement (`Node.setter(target, expand)`):
replaces the subtree at the end of the path, sharing all siblings.  With
`expand = true` a summary leaf encountered on the way is expanded into a
zero pair so the path can continue (growing a zero-shaped subtree into a
differently-shaped value); with `expand = false` that is a navigation
error. -/
def setNode (expand : Bool) : Node → List Bool → Node → Option Node
  | _, [], v => some v
  | .pair l r, b :: bs, v =>
      if b then (setNode expand r bs v).map (.pair l ·)
      else (setNode expand l bs v).map (.pair · r)
  | .root _, b :: bs, v =>
      if expand then
        let z := Node.root zeroRoot
        if b then (setNode expand z bs v).map (.pair z ·)
        else (setNode expand z bs v).map (.pair · z)
      else none

/-- `Node.summarize_into(target)`: collapse the subtree at `target` into a
single root leaf carrying its merkle root (canonical minimal form). -/
def summarize_into (H : Chunk → Chunk → Chunk) (n : Node) (g : Nat) :
    Option Node := do
  let sub ← getNode n (gindexPath g)
  setNode false n (gindexPath g) (.root (sub.merkle_root H))

/-- External `subtree_fill_to_contents(nodes, depth)`: places the given
content nodes at the leaves of a depth-`depth` subtree, zero-filling the
rest; fails if more nodes are supplied than fit. -/
def subtree_fill_to_contents (H : Chunk → Chunk → Chunk) :
    List Node → Nat → Option Node
  | [], d => some (zero_node H d)
  | [n], 0 => some n
  | _ :: _ :: _, 0 => none
  | ns, d + 1 => do
      let l ← subtree_fill_to_contents H (ns.take (2 ^ d)) d
      let r ← subtree_fill_to_contents H (ns.drop (2 ^ d)) d
      return .pair l r

/-- External element type descriptor (spec section 6 / remerkleable views):
the capabilities of `T` used by the Optional container.  `toBacking v` is
the single contents node produced by `views_into_chunks([v])` followed by
`subtree_fill_to_contents(_, 0)` (for a composite type the view's backing,
for a packed basic type its padded chunk); `fromBacking` is the decoding
used by element access; `serializeT`/`deserializeT` is the stream codec,
where `deserializeT` receives exactly the `scope` bytes it may read. -/
structure ElemType (α : Type) where
  min_byte_length : Nat
  max_byte_length : Nat
  is_fixed_byte_length : Bool
  type_byte_length : Nat
  toBacking : α → Node
  fromBacking : Node → Option α
  serializeT : α → List Nat
  deserializeT : List Nat → Option α

/-- `Optional.limit() = 1`: the container holds at most one value
(fixed by `__class_getitem__` and asserted in `__new__`). -/
def Optional.limit : Nat := 1

/-- `Optional.contents_depth() = get_depth(limit)`. -/
def Optional.contents_depth : Nat := get_depth Optional.limit

/-- `Optional.tree_depth() = contents_depth() + 1` (one extra level for the
length mix-in). -/
def Optional.tree_depth : Nat := Optional.contents_depth + 1

/-- `Optional.__new__` with a value argument (`fromValue`): the input views
are `[]` or `[v]`, their chunk nodes fill a depth-`contents_depth` subtree,
and the backing is `PairNode(contents, uint256(len(input_views)))`. -/
def Optional.fromValue (H : Chunk → Chunk → Chunk) (E : ElemType α)
    (v? : Option α) : Option Node := do
  let input_nodes := match v? with
    | none => []
    | some v => [E.toBacking v]
  let contents ← subtree_fill_to_contents H input_nodes Optional.contents_depth
  return Node.pair contents (Node.root (encodeUint256 input_nodes.length))

/-- `Optional.length()`: decode the backing's right child as a uint256. -/
def Optional.length (b : Node) : Option Nat := do
  let ll_node ← b.get_right
  uint256_from_node ll_node

/-- `Optional.get()`: absent if `length() == 0`, otherwise the element at
position 0 of the contents subtree, decoded through `T` (the inherited
`super().get(0)` navigates to `to_gindex(0, tree_depth)` and decodes). -/
def Optional.get (E : ElemType α) (b : Node) : Option (Option α) := do
  let len ← Optional.length b
  if len = 0 then
    return none
  else do
    let g ← to_gindex 0 Optional.tree_depth
    let c ← getNode b (gindexPath g)
    let v ← E.fromBacking c
    return some v

/-- `Optional.value_byte_length()`: 0 if absent; the element's fixed byte
length if `T` is fixed-byte-length; in the variable-length branch the
source evaluates the name `el`, which is not defined anywhere in scope, so
that branch fails with a `NameError` — modelled as `none`. -/
def Optional.value_byte_length (E : ElemType α) (b : Node) : Option Nat := do
  let len ← Optional.length b
  if len = 0 then
    return 0
  else if E.is_fixed_byte_length then
    return E.type_byte_length
  else
    none

/-- The upward summarization walk in the clearing branch of `set`:
`while (target & 1) == 0 and target != 0b10: target >>= 1`.  The extra
`t ≠ 0` guard only ensures termination in Lean; at `t = 0` the Python loop
would not terminate, and `set` only ever runs the loop at `target = 2`. -/
def Optional.summarizeWalk (t : Nat) : Nat :=
  if t % 2 = 0 ∧ t ≠ 2 ∧ t ≠ 0 then Optional.summarizeWalk (t / 2) else t
termination_by t
decreasing_by
  rename_i h
  exact Nat.div_lt_self (Nat.pos_of_ne_zero h.2.2) (by omega)

/-- `Optional.set(v)`.  Clearing (`v = none`): no-op if already absent,
otherwise replace contents position 0 with `zero_node(0)` via the setter,
summarize along the walked-up target when the replaced gindex is even, and
rebind the length child to 0.  Setting: if `length() == 1`, a same-slot
overwrite through the inherited `set(0, v)` which returns without touching
the length child; otherwise a path-scoped replacement with `expand = true`
followed by rebinding the length child to 1. -/
def Optional.set (H : Chunk → Chunk → Chunk) (E : ElemType α) (b : Node)
    (v? : Option α) : Option Node :=
  match v? with
  | none => do
      let len ← Optional.length b
      if len = 0 then
        return b
      else do
        let i := 0
        let target ← to_gindex i Optional.tree_depth
        let next_backing ← setNode false b (gindexPath target) (zero_node H 0)
        let next_backing ←
          if target % 2 = 0 then
            summarize_into H next_backing (Optional.summarizeWalk target)
          else
            pure next_backing
        let new_length := Node.root (encodeUint256 i)
        next_backing.rebind_right new_length
  | some v => do
      let len ← Optional.length b
      if len = 1 then do
        let g ← to_gindex 0 Optional.tree_depth
        setNode false b (gindexPath g) (E.toBacking v)
      else do
        let i := 0
        let target ← to_gindex i Optional.tree_depth
        let next_backing ← setNode true b (gindexPath target) (E.toBacking v)
        let new_length := Node.root (encodeUint256 (i + 1))
        next_backing.rebind_right new_length

/-- `Optional.serialize(stream)`: nothing is written when absent, otherwise
the element's own serialization; the returned byte count is the length of
the bytes produced here. -/
def Optional.serialize (E : ElemType α) (b : Node) : Option (List Nat) := do
  let v? ← Optional.get E b
  match v? with
  | none => return []
  | some v => return E.serializeT v

/-- `Optional.deserialize(stream, scope)`: the absent instance when
`scope == 0` (no bytes consumed), otherwise the present instance wrapping
the element decoded from the `scope` bytes of the stream. -/
def Optional.deserialize (H : Chunk → Chunk → Chunk) (E : ElemType α)
    (stream : List Nat) (scope : Nat) : Option Node :=
  if scope = 0 then
    Optional.fromValue H E none
  else do
    let v ← E.deserializeT (stream.take scope)
    Optional.fromValue H E (some v)

/-- Keys accepted by the navigation surface: an integer slot index or the
special pseudo-key `__is_some__`. -/
inductive NavKey where
  | index : Int → NavKey
  | isSome : NavKey
deriving DecidableEq

/-- Inherited `MonoSubtreeView.navigate_type(key)` (library code outside
the snippet), modelled from the spec's navigation contract: a key is valid
iff `0 <= key < limit`, and resolves to the element type (represented by
`Unit` here since only success or failure matters). -/
def Optional.super_navigate_type (k : Int) : Option Unit :=
  if k < 0 ∨ (Optional.limit : Int) ≤ k then none else some ()

/-- `Optional.navigate_type(key)`: rejects `key >= limit()`, then defers to
the inherited navigation. -/
def Optional.navigate_type (k : Int) : Option Unit :=
  if (Optional.limit : Int) ≤ k then none
  else Optional.super_navigate_type k

/-- Inherited `MonoSubtreeView.key_to_static_gindex(key)` (library code
outside the snippet), modelled from the spec's navigation contract:
a valid slot index resolves to `to_gindex(key, tree_depth)`. -/
def Optional.super_key_to_static_gindex (k : Int) : Option Nat :=
  if k < 0 ∨ (Optional.limit : Int) ≤ k then none
  else to_gindex k.toNat Optional.tree_depth

/-- `Optional.key_to_static_gindex(key)`: the pseudo-key `__is_some__`
resolves directly to `RIGHT_GINDEX`; a numeric key `>= limit()` is
rejected, and any other numeric key defers to the inherited resolution. -/
def Optional.key_to_static_gindex (k : NavKey) : Option Nat :=
  match k with
  | .isSome => some RIGHT_GINDEX
  | .index i =>
      if (Optional.limit : Int) ≤ i then none
      else Optional.super_key_to_static_gindex i

/-- `Optional.default_node()`: zero contents paired with a zero length. -/
def Optional.default_node (H : Chunk → Chunk → Chunk) : Node :=
  Node.pair (zero_node H Optional.contents_depth) (zero_node H 0)

/-- `Optional.is_fixed_byte_length() = False`. -/
def Optional.is_fixed_byte_length : Bool := false

/-- `Optional.min_byte_length() = 0`. -/
def Optional.min_byte_length : Nat := 0

/-- `Optional.max_byte_length() = T.max_byte_length()`. -/
def Optional.max_byte_length (E : ElemType α) : Nat := E.max_byte_length

/-- Instances reachable through the validated entry points: value
construction (`__new__` with a value, including `none`), followed by any
sequence of `set` operations — never by adopting a raw backing. -/
inductive Optional.Reachable (H : Chunk → Chunk → Chunk) (E : ElemType α) :
    Node → Prop
  | ofValue (v? : Option α) (b : Node) :
      Optional.fromValue H E v? = some b → Optional.Reachable H E b
  | ofSet (b b' : Node) (v? : Option α) :
      Optional.Reachable H E b → Optional.set H E b v? = some b' →
      Optional.Reachable H E b'

/-- A concrete stand-in hash for instantiating theorems at concrete
inputs (the claims hold for every hash function). -/
def wHash : Chunk → Chunk → Chunk := fun _ _ => zeroRoot

/-- A concrete fixed-byte-length element type (a uint8-like basic type)
used to instantiate the theorems at concrete inputs. -/
def wByte : ElemType Nat where
  min_byte_length := 1
  max_byte_length := 1
  is_fixed_byte_length := true
  type_byte_length := 1
  toBacking := fun n => Node.root (n % 256 :: List.replicate 31 0)
  fromBacking := fun node =>
    match node with
    | .root (b :: _) => some b
    | _ => none
  serializeT := fun n => [n % 256]
  deserializeT := fun bs =>
    match bs with
    | [b] => some (b % 256)
    | _ => none

/-- A concrete variable-byte-length element type (a short byte-list-like
type) used to exhibit the `value_byte_length` failure. -/
def wVar : ElemType (List Nat) where
  min_byte_length := 1
  max_byte_length := 33
  is_fixed_byte_length := false
  type_byte_length := 0
  toBacking := fun l =>
    Node.pair (Node.root ((l.map (· % 256)) ++ List.replicate (32 - l.length) 0))
      (Node.root (encodeUint256 l.length))
  fromBacking := fun node =>
    match node with
    | .pair (.root bs) (.root len) => some ((bs.take (decodeUint256 len)))
    | _ => none
  serializeT := fun l => l.map (· % 256)
  deserializeT := fun bs => some bs

theorem decode_encode_zero : decodeUint256 (encodeUint256 0) = 0 := by decide

theorem decode_encode_one : decodeUint256 (encodeUint256 1) = 1 := by decide

theorem length_pair (c : Node) (bs : Chunk) :
    Optional.length (.pair c (.root bs)) = some (decodeUint256 bs) := rfl

theorem length_inv {b : Node} {l : Nat} (h : Optional.length b = some l) :
    ∃ c bs, b = Node.pair c (Node.root bs) ∧ decodeUint256 bs = l := by
  match b with
  | .root r => simp [Optional.length, Node.get_right] at h
  | .pair c (.root bs) =>
      refine ⟨c, bs, rfl, ?_⟩
      simpa [Optional.length, Node.get_right, uint256_from_node] using h
  | .pair c (.pair x y) =>
      simp [Optional.length, Node.get_right, uint256_from_node] at h

theorem fromValue_some (H : Chunk → Chunk → Chunk) {α : Type} (E : ElemType α)
    (v : α) :
    Optional.fromValue H E (some v)
      = some (.pair (E.toBacking v) (.root (encodeUint256 1))) := rfl

theorem fromValue_none (H : Chunk → Chunk → Chunk) {α : Type} (E : ElemType α) :
    Optional.fromValue H E none
      = some (.pair (.root zeroRoot) (.root (encodeUint256 0))) := rfl

theorem gindexPath_two : gindexPath 2 = [false] := rfl

theorem gindexPath_three : gindexPath 3 = [true] := by decide

theorem to_gindex_zero : to_gindex 0 Optional.tree_depth = some 2 := rfl

theorem summarizeWalk_two : Optional.summarizeWalk 2 = 2 := by
  rw [Optional.summarizeWalk]
  simp

theorem set_noop (H : Chunk → Chunk → Chunk) {α : Type} (E : ElemType α)
    (c : Node) (bs : Chunk) (h : decodeUint256 bs = 0) :
    Optional.set H E (.pair c (.root bs)) none = some (.pair c (.root bs)) := by
  simp [Optional.set, Optional.length, Node.get_right, uint256_from_node, h]

theorem set_clear (H : Chunk → Chunk → Chunk) {α : Type} (E : ElemType α)
    (c : Node) (bs : Chunk) (h : decodeUint256 bs ≠ 0) :
    Optional.set H E (.pair c (.root bs)) none
      = some (.pair (.root zeroRoot) (.root (encodeUint256 0))) := by
  simp [Optional.set, Optional.length, Node.get_right, uint256_from_node, h,
    to_gindex_zero, summarizeWalk_two, gindexPath_two, summarize_into,
    getNode, setNode, Node.rebind_right, zero_node, Node.merkle_root]

theorem set_overwrite (H : Chunk → Chunk → Chunk) {α : Type} (E : ElemType α)
    (c : Node) (bs : Chunk) (v : α) (h : decodeUint256 bs = 1) :
    Optional.set H E (.pair c (.root bs)) (some v)
      = some (.pair (E.toBacking v) (.root bs)) := by
  simp [Optional.set, Optional.length, Node.get_right, uint256_from_node, h,
    to_gindex_zero, gindexPath_two, setNode]

theorem set_expand (H : Chunk → Chunk → Chunk) {α : Type} (E : ElemType α)
    (c : Node) (bs : Chunk) (v : α) (h : decodeUint256 bs ≠ 1) :
    Optional.set H E (.pair c (.root bs)) (some v)
      = some (.pair (E.toBacking v) (.root (encodeUint256 1))) := by
  simp [Optional.set, Optional.length, Node.get_right, uint256_from_node, h,
    to_gindex_zero, gindexPath_two, setNode, Node.rebind_right]

theorem get_absent {α : Type} (E : ElemType α) (c : Node) (bs : Chunk)
    (h : decodeUint256 bs = 0) :
    Optional.get E (.pair c (.root bs)) = some none := by
  simp [Optional.get, Optional.length, Node.get_right, uint256_from_node, h]

theorem get_present {α : Type} (E : ElemType α) (c : Node) (bs : Chunk)
    (h : decodeUint256 bs ≠ 0) :
    Optional.get E (.pair c (.root bs)) = (E.fromBacking c).map some := by
  simp [Optional.get, Optional.length, Node.get_right, uint256_from_node, h,
    to_gindex_zero, gindexPath_two, getNode, Option.map_eq_bind]

/-- C4: Construction round-trip — for every valid element type `T` and
every input `v` of `T` (one whose backing decodes back to itself, the
element codec contract), constructing an instance from the value `v` and
then reading it back with `get()` returns `v`. -/
theorem C4_construction_round_trip (H : Chunk → Chunk → Chunk) {α : Type}
    (E : ElemType α) (v : α) (hback : E.fromBacking (E.toBacking v) = some v) :
    (Optional.fromValue H E (some v)).bind (Optional.get E)
      = some (some v) := by
  rw [fromValue_some, Option.some_bind,
    get_present E _ _ (by simp [decode_encode_one]), hback]
  rfl

/-- C4 witness: the round-trip at the concrete byte element `5`. -/
theorem C4_construction_round_trip_witness :
    wByte.fromBacking (wByte.toBacking 5) = some 5 ∧
    (Optional.fromValue wHash wByte (some 5)).bind (Optional.get wByte)
      = some (some 5) :=
  ⟨by decide, C4_construction_round_trip wHash wByte 5 (by decide)⟩

/-- C7: Idempotence of clearing — on an instance whose `length()` is
already 0, `set(absent)` is a no-op returning a backing structurally
identical to the original. -/
theorem C7_clear_idempotent (H : Chunk → Chunk → Chunk) {α : Type}
    (E : ElemType α) (b : Node) (hlen : Optional.length b = some 0) :
    Optional.set H E b none = some b := by
  obtain ⟨c, bs, rfl, hbs⟩ := length_inv hlen
  exact set_noop H E c bs hbs

/-- C7 witness: clearing the concrete absent instance leaves it intact. -/
theorem C7_clear_idempotent_witness :
    Optional.length (Node.pair (Node.root zeroRoot)
        (Node.root (encodeUint256 0))) = some 0 ∧
    Optional.set wHash wByte
        (Node.pair (Node.root zeroRoot) (Node.root (encodeUint256 0))) none
      = some (Node.pair (Node.root zeroRoot) (Node.root (encodeUint256 0))) :=
  ⟨by decide, C7_clear_idempotent wHash wByte _ (by decide)⟩

/-- C8: the presence-flag pseudo-key resolves directly to the length
child's fixed position, gindex `RIGHT_GINDEX = 3`, the right child of the
root — and not through normal slot navigation, which resolves the sole
slot key 0 to gindex 2 instead. -/
theorem C8_presence_flag_pseudo_key :
    Optional.key_to_static_gindex NavKey.isSome = some RIGHT_GINDEX ∧
    RIGHT_GINDEX = 3 ∧
    (∀ l r : Node, getNode (Node.pair l r) (gindexPath RIGHT_GINDEX) = some r) ∧
    Optional.super_key_to_static_gindex 0 = some 2 :=
  ⟨rfl, rfl, fun l r => by simp [RIGHT_GINDEX, gindexPath_three, getNode], rfl⟩

/-- C9: `navigate_type(key)` succeeds exactly for `key == 0`; every other
integer key — at least 1 or negative — fails, since `limit = 1`. -/
theorem C9_navigate_type_validation (k : Int) :
    Optional.navigate_type k = if k = 0 then some () else none := by
  simp only [Optional.navigate_type, Optional.super_navigate_type,
    Optional.limit, Nat.cast_one]
  split_ifs <;> first | rfl | omega

/-- C10: Summarization-loop degeneracy — in the clearing branch the
replaced position's gindex is `to_gindex(0, tree_depth) = 2 = 0b10`, the
loop's stopping index, so the loop guard
`(target & 1) == 0 and target != 0b10` is false on entry and the walk
returns its input unchanged. -/
theorem C10_summarization_loop_degenerate :
    to_gindex 0 Optional.tree_depth = some 2 ∧
    ¬ (2 % 2 = 0 ∧ (2 : Nat) ≠ 2) ∧
    Optional.summarizeWalk 2 = 2 :=
  ⟨rfl, by decide, summarizeWalk_two⟩

/-- C1: Serialization round-trip — for a value `v` whose element codec
round-trips (and whose encoding is nonempty, the specialization's
`min_byte_length > 0` invariant), deserializing the bytes written by
serializing `fromValue(v)` with scope equal to their count yields an
instance whose `get()` is `v`; and deserializing with `scope == 0` yields
the absent instance independently of the stream, consuming nothing. -/
theorem C1_serialization_round_trip (H : Chunk → Chunk → Chunk) {α : Type}
    (E : ElemType α) (v : α)
    (hdes : E.deserializeT (E.serializeT v) = some v)
    (hback : E.fromBacking (E.toBacking v) = some v)
    (hlen : 0 < (E.serializeT v).length) :
    (∃ b buf, Optional.fromValue H E (some v) = some b ∧
        Optional.serialize E b = some buf ∧
        (Optional.deserialize H E buf buf.length).bind (Optional.get E)
          = some (some v)) ∧
    (∀ stream, Optional.deserialize H E stream 0
        = Optional.fromValue H E none) ∧
    (Optional.deserialize H E [] 0).bind (Optional.get E) = some none := by
  refine ⟨⟨.pair (E.toBacking v) (.root (encodeUint256 1)), E.serializeT v,
      fromValue_some H E v, ?_, ?_⟩, fun stream => rfl, ?_⟩
  · rw [Optional.serialize, get_present E _ _ (by simp [decode_encode_one]),
      hback]
    rfl
  · rw [Optional.deserialize, if_neg (by omega), List.take_length, hdes]
    show (Optional.fromValue H E (some v)).bind (Optional.get E)
      = some (some v)
    rw [fromValue_some, Option.some_bind,
      get_present E _ _ (by simp [decode_encode_one]), hback]
    rfl
  · rw [show Optional.deserialize H E [] 0 = Optional.fromValue H E none
      from rfl, fromValue_none, Option.some_bind,
      get_absent E _ _ (by simp [decode_encode_zero])]

/-- C1 witness: the round-trip at the concrete byte element `5`. -/
theorem C1_serialization_round_trip_witness :
    wByte.deserializeT (wByte.serializeT 5) = some 5 ∧
    wByte.fromBacking (wByte.toBacking 5) = some 5 ∧
    0 < (wByte.serializeT 5).length ∧
    ((∃ b buf, Optional.fromValue wHash wByte (some 5) = some b ∧
        Optional.serialize wByte b = some buf ∧
        (Optional.deserialize wHash wByte buf buf.length).bind
            (Optional.get wByte) = some (some 5)) ∧
      (∀ stream, Optional.deserialize wHash wByte stream 0
          = Optional.fromValue wHash wByte none) ∧
      (Optional.deserialize wHash wByte [] 0).bind (Optional.get wByte)
        = some none) :=
  ⟨by decide, by decide, by decide,
    C1_serialization_round_trip wHash wByte 5 (by decide) (by decide)
      (by decide)⟩

/-- C2: Clear-then-set — from any prior state (present or absent),
`set(absent)` followed by `set(v)` leaves the instance with
`get() == v`; the second step goes through the expanding replacement of
the contents slot and rebinds the length child to 1. -/
theorem C2_clear_then_set (H : Chunk → Chunk → Chunk) {α : Type}
    (E : ElemType α) (b : Node) (v : α)
    (hlen : Optional.length b = some 0 ∨ Optional.length b = some 1)
    (hback : E.fromBacking (E.toBacking v) = some v) :
    ∃ b1 b2, Optional.set H E b none = some b1 ∧
      Optional.set H E b1 (some v) = some b2 ∧
      Optional.get E b2 = some (some v) ∧
      b2.get_right = some (Node.root (encodeUint256 1)) := by
  rcases hlen with h | h
  · obtain ⟨c, bs, rfl, hbs⟩ := length_inv h
    refine ⟨_, _, set_noop H E c bs hbs, set_expand H E c bs v (by omega),
      ?_, rfl⟩
    rw [get_present E _ _ (by simp [decode_encode_one]), hback]
    rfl
  · obtain ⟨c, bs, rfl, hbs⟩ := length_inv h
    refine ⟨_, _, set_clear H E c bs (by omega),
      set_expand H E _ _ v (by simp [decode_encode_zero]), ?_, rfl⟩
    rw [get_present E _ _ (by simp [decode_encode_one]), hback]
    rfl

/-- C2 witness: clear-then-set on a concrete present instance holding `5`,
setting `7`. -/
theorem C2_clear_then_set_witness :
    (Optional.length (Node.pair (Node.root (5 :: List.replicate 31 0))
          (Node.root (encodeUint256 1))) = some 0 ∨
      Optional.length (Node.pair (Node.root (5 :: List.replicate 31 0))
          (Node.root (encodeUint256 1))) = some 1) ∧
    wByte.fromBacking (wByte.toBacking 7) = some 7 ∧
    (∃ b1 b2,
      Optional.set wHash wByte
          (Node.pair (Node.root (5 :: List.replicate 31 0))
            (Node.root (encodeUint256 1))) none = some b1 ∧
      Optional.set wHash wByte b1 (some 7) = some b2 ∧
      Optional.get wByte b2 = some (some 7) ∧
      b2.get_right = some (Node.root (encodeUint256 1))) :=
  ⟨Or.inr (by decide), by decide,
    C2_clear_then_set wHash wByte _ 7 (Or.inr (by decide)) (by decide)⟩

/-- C3: the absent branch of `value_byte_length` returns 0 and the
fixed-byte-length branch returns the element's fixed byte length, as
claimed; but on a present instance of a variable-byte-length element type
the source's variable-length branch evaluates the undefined name `el` and
fails with a `NameError` instead of returning the contained value's byte
length. -/
theorem C3_value_byte_length_name_error :
    (Optional.fromValue wHash wVar (some [1, 2, 3])).bind
        (Optional.value_byte_length wVar) = none ∧
    (Optional.fromValue wHash wVar (some [1, 2, 3])).bind Optional.length
      = some 1 ∧
    (Optional.fromValue wHash wVar none).bind
        (Optional.value_byte_length wVar) = some 0 ∧
    (Optional.fromValue wHash wByte (some 5)).bind
        (Optional.value_byte_length wByte) = some 1 := by
  decide

/-- C5: Length invariant — every instance reachable through value
construction and `set` operations (never an unvalidated raw backing) has a
length child decoding to 0 or 1, never any other value. -/
theorem C5_length_invariant (H : Chunk → Chunk → Chunk) {α : Type}
    (E : ElemType α) (b : Node) (h : Optional.Reachable H E b) :
    Optional.length b = some 0 ∨ Optional.length b = some 1 := by
  induction h with
  | ofValue v? b hv =>
      cases v? with
      | none =>
          rw [fromValue_none] at hv
          cases hv
          left
          simp [length_pair, decode_encode_zero]
      | some v =>
          rw [fromValue_some] at hv
          cases hv
          right
          simp [length_pair, decode_encode_one]
  | ofSet b b' v? hr hset ih =>
      rcases ih with hl | hl
      · obtain ⟨c, bs, rfl, hbs⟩ := length_inv hl
        cases v? with
        | none =>
            rw [set_noop H E c bs hbs] at hset
            cases hset
            left
            simp [length_pair, hbs]
        | some v =>
            rw [set_expand H E c bs v (by omega)] at hset
            cases hset
            right
            simp [length_pair, decode_encode_one]
      · obtain ⟨c, bs, rfl, hbs⟩ := length_inv hl
        cases v? with
        | none =>
            rw [set_clear H E c bs (by omega)] at hset
            cases hset
            left
            simp [length_pair, decode_encode_zero]
        | some v =>
            rw [set_overwrite H E c bs v hbs] at hset
            cases hset
            right
            simp [length_pair, hbs]

/-- C5 witness: the invariant at a concrete reachable instance, built by
value construction and one `set`. -/
theorem C5_length_invariant_witness :
    Optional.Reachable wHash wByte
      (Node.pair (wByte.toBacking 7) (Node.root (encodeUint256 1))) ∧
    (Optional.length
        (Node.pair (wByte.toBacking 7) (Node.root (encodeUint256 1)))
      = some 0 ∨
    Optional.length
        (Node.pair (wByte.toBacking 7) (Node.root (encodeUint256 1)))
      = some 1) :=
  have hr : Optional.Reachable wHash wByte
      (Node.pair (wByte.toBacking 7) (Node.root (encodeUint256 1))) :=
    .ofSet _ _ (some 7)
      (.ofValue none (.pair (.root zeroRoot) (.root (encodeUint256 0)))
        (by decide))
      (by decide)
  ⟨hr, C5_length_invariant wHash wByte _ hr⟩

/-- C6: Overwrite-in-place — on a present instance, `set(v2)` keeps
`length() == 1`, makes `get()` return `v2`, and leaves the length child's
node in the backing tree the very node it was before (only the contents
child is replaced). -/
theorem C6_overwrite_in_place (H : Chunk → Chunk → Chunk) {α : Type}
    (E : ElemType α) (b : Node) (v : α)
    (hlen : Optional.length b = some 1)
    (hback : E.fromBacking (E.toBacking v) = some v) :
    ∃ b', Optional.set H E b (some v) = some b' ∧
      Optional.length b' = some 1 ∧
      Optional.get E b' = some (some v) ∧
      b'.get_right = b.get_right := by
  obtain ⟨c, bs, rfl, hbs⟩ := length_inv hlen
  refine ⟨_, set_overwrite H E c bs v hbs, ?_, ?_, rfl⟩
  · simp [length_pair, hbs]
  · rw [get_present E _ _ (by omega), hback]
    rfl

/-- C6 witness: overwriting the concrete present instance holding `5`
with `9`. -/
theorem C6_overwrite_in_place_witness :
    Optional.length (Node.pair (Node.root (5 :: List.replicate 31 0))
        (Node.root (encodeUint256 1))) = some 1 ∧
    wByte.fromBacking (wByte.toBacking 9) = some 9 ∧
    (∃ b', Optional.set wHash wByte
        (Node.pair (Node.root (5 :: List.replicate 31 0))
          (Node.root (encodeUint256 1))) (some 9) = some b' ∧
      Optional.length b' = some 1 ∧
      Optional.get wByte b' = some (some 9) ∧
      b'.get_right = (Node.pair (Node.root (5 :: List.replicate 31 0))
          (Node.root (encodeUint256 1))).get_right) :=
  ⟨by decide, by decide,
    C6_overwrite_in_place wHash wByte _ 9 (by decide) (by decide)⟩
